import Mathlib

/-!
# SoulsTrackerAPI — shallow embedding and verification

Shallow embedding of the core logic of `src/routes/api.js`:

* the boss-progress evaluation of `GET /bosses/:steamid/:appid`
  (lines 305–386),
* the achievement enrichment of `GET /achievements/:steamid/:appid`
  (lines 443–525),
* the game dispatch `switch` statements (lines 307–319 and 461–472),
* the owned-games frontend-id mapping of `GET /owned-games/:steamid`
  (lines 143–169).

JavaScript runtime behaviour is modelled explicitly: a thrown `TypeError`
(e.g. reading `.name` or `.achieved` of `undefined`) is a distinguished
error outcome, since the route wraps its body in `try/catch` and forwards
the exception to the Express error handler.
-/

namespace SoulsTracker

/-- A player achievement entry from the Steam
`GetPlayerAchievements` payload: `{ apiname, achieved, unlocktime }`.
`achieved` is `0` or `1` in the data; JavaScript truthiness makes any
non-zero value truthy, which the embedding mirrors with `≠ 0`. -/
structure PlayerAchievement where
  apiname : String
  achieved : Nat
  unlocktime : Nat
deriving Repr, DecidableEq

/-- A boss milestone's `apiname` field in the boss JSON files: normally a
single achievement identifier string, but for branching-ending milestones
an array of candidate identifier strings. -/
inductive ApiName where
  | single (s : String)
  | multi (l : List String)
deriving Repr, DecidableEq

/-- A boss milestone `{ apiname, name }`, member of the ordered boss list
loaded from `../schemas/bosses/<game>.json`. -/
structure BossMilestone where
  apiname : ApiName
  name : String
deriving Repr, DecidableEq

/-- The progress verdict object the route serializes under the `data`
field: `{ complete, next_boss?, recent_boss? }`; `none` models an absent
field (`undefined` is dropped by JSON serialization). -/
structure Verdict where
  complete : Bool
  next_boss : Option String
  recent_boss : Option String
deriving Repr, DecidableEq

/-- Outcome of the bosses route body.

* `dataVerdict v` — `res.json({ data: v })` (the mid-loop returns at
  lines 357–362 and 367–374 of `api.js`);
* `responseComplete b` — `res.json({ response: { complete: true,
  recent_boss: bosses[bosses.length - 1] } })` (lines 377–382): note the
  top-level key is `response`, not `data`, and `recent_boss` is the whole
  milestone object, not its `name` string (`none` if the boss list is
  empty, where `bosses[-1]` is `undefined` and the field is dropped);
* `err` — a `TypeError` was thrown inside the `try` block and forwarded
  to `next(err)` (an HTTP 500, no verdict). -/
inductive BossesResponse where
  | dataVerdict (v : Verdict)
  | responseComplete (recent : Option BossMilestone)
  | err
deriving Repr, DecidableEq

/-- Model of `achievements.find((a) => a.apiname === boss.apiname)` (line 338).
When `boss.apiname` is an array, strict equality `===` between a string
and an array is always `false`, so `find` yields `undefined`. -/
def findExact (achievements : List PlayerAchievement) (boss : BossMilestone) :
    Option PlayerAchievement :=
  match boss.apiname with
  | .single s => achievements.find? (fun a => a.apiname == s)
  | .multi _ => none

/-- Substring containment, JavaScript `String.prototype.includes`
(the empty string is contained in every string). -/
def strIncludes (t s : String) : Bool :=
  s.isEmpty || (t.splitOn s).length > 1

/-- Model of `boss.apiname.includes(achievement.apiname)` (line 347):
`Array.prototype.includes` (membership) when `apiname` is an array,
`String.prototype.includes` (substring) when it is a string. -/
def apinameIncludes (api : ApiName) (s : String) : Bool :=
  match api with
  | .single t => strIncludes t s
  | .multi l => l.contains s

/-- The `for (const [index, boss] of bosses.entries())` loop of
lines 337–375, with `prev` carrying `bosses[index - 1]` (`none` at
index `0`, where `bosses[-1]` is `undefined`).

Per iteration, following the source exactly:
* `currentBoss = achievements.find(...)`;
* if `undefined`: filter the candidate achievements and, if one is
  achieved, return `{ data: { complete: true, recent_boss: boss.name } }`;
  otherwise fall through to `currentBoss.achieved`, a `TypeError` on
  `undefined` — modelled as `.err`;
* if found and falsy `achieved`: return `{ data: { complete: false,
  next_boss: boss.name, recent_boss: bosses[index - 1].name } }`; at
  index `0` the read `bosses[-1].name` throws — modelled as `.err`;
* if found and achieved: continue.

After the loop: `{ response: { complete: true,
recent_boss: bosses[bosses.length - 1] } }`, with the last milestone
object itself (not its name). -/
def evalLoop (achievements : List PlayerAchievement) :
    Option BossMilestone → List BossMilestone → BossesResponse
  | prev, [] => .responseComplete prev
  | prev, boss :: rest =>
    match findExact achievements boss with
    | none =>
      let possibleAchievements :=
        achievements.filter (fun a => apinameIncludes boss.apiname a.apiname)
      if possibleAchievements.any (fun a => a.achieved != 0) then
        .dataVerdict ⟨true, none, some boss.name⟩
      else
        .err
    | some currentBoss =>
      if currentBoss.achieved == 0 then
        match prev with
        | none => .err
        | some p => .dataVerdict ⟨false, some boss.name, some p.name⟩
      else
        evalLoop achievements (some boss) rest

/-- The boss-progress evaluation of `GET /bosses/:steamid/:appid`
(`ProgressTracker.evaluate` in the spec): scan the ordered boss list
against the player's achievement set. -/
def evaluate (bosses : List BossMilestone) (achievements : List PlayerAchievement) :
    BossesResponse :=
  evalLoop achievements none bosses

/-- The milestone `b` has an exact-match player entry that is achieved. -/
def passes (achievements : List PlayerAchievement) (b : BossMilestone) : Prop :=
  ∃ a, findExact achievements b = some a ∧ a.achieved ≠ 0

/-- The milestone `b` has an exact-match player entry that is not
achieved (`achieved = 0`). -/
def failsAt (achievements : List PlayerAchievement) (b : BossMilestone) : Prop :=
  ∃ a, findExact achievements b = some a ∧ a.achieved = 0

/-! ## Achievement enrichment (`GET /achievements/:steamid/:appid`, lines 489–515) -/

/-- A schema achievement entry from the game's static schema JSON
(`schema.game.availableGameStats.achievements`): the Steam schema field
`name` holds the achievement identifier (the spec's `apiname`), with
`displayName`, `description` and `icon` as human-readable metadata. -/
structure SchemaAchievement where
  name : String
  displayName : String
  description : String
  icon : String
deriving Repr, DecidableEq

/-- A global achievement-percentage entry (`{ name, percent }`) from
`GetGlobalAchievementPercentagesForApp`. `percent` is carried opaquely;
no arithmetic is performed on it. -/
structure RarityEntry where
  name : String
  percent : Int
deriving Repr, DecidableEq

/-- One entry of the enriched result array (lines 504–512). The code
formats `unlocktime` as `new Date(secs * 1000).toDateString()`, a string
that depends on the server's local time zone (an environment effect);
the embedding carries the epoch-seconds value it is computed from. -/
structure EnrichedAchievement where
  name : String
  description : String
  unlocktime : Nat
  icon : String
  rarity : Int
deriving Repr, DecidableEq

/-- The `schema.game.availableGameStats.achievements.forEach` body of
lines 495–515, at position `i`, following the source exactly:

* `playerAchievements[index].achieved` — when `index` is past the end of
  the player array the element is `undefined` and the property access
  throws a `TypeError`, modelled as `none` for the whole call (the
  exception aborts the loop and discards every entry pushed so far);
* if achieved (truthy), `percentages.find((p) => p.name ===
  achievement.name).percent` — a missing rarity entry makes `find` return
  `undefined` and the `.percent` access throws, again `none` overall;
* otherwise push `{ name: displayName, description, unlocktime, icon,
  rarity }` and continue. -/
def enrichAux (player : List PlayerAchievement) (rarity : List RarityEntry) :
    Nat → List SchemaAchievement → Option (List EnrichedAchievement)
  | _, [] => some []
  | i, a :: rest =>
    match player[i]? with
    | none => none
    | some p =>
      if p.achieved != 0 then
        match rarity.find? (fun r => r.name == a.name) with
        | none => none
        | some r =>
          match enrichAux player rarity (i + 1) rest with
          | none => none
          | some tail =>
            some (⟨a.displayName, a.description, p.unlocktime, a.icon, r.percent⟩ :: tail)
      else
        enrichAux player rarity (i + 1) rest

/-- The whole enrichment computation (`AchievementEnricher.enrich` in
the spec): positions are walked in schema order starting at index `0`;
`none` models a thrown `TypeError` (no result at all reaches the
client). -/
def enrich (schema : List SchemaAchievement) (player : List PlayerAchievement)
    (rarity : List RarityEntry) : Option (List EnrichedAchievement) :=
  enrichAux player rarity 0 schema

/-- The entry built for schema entry `a` and player entry `p`. The
rarity field is the percent of the first rarity entry whose `name`
equals `a.name` (defaulting to `0` only in the unreachable uncovered
case; the theorems using this definition assume coverage). -/
def enrichedOf (a : SchemaAchievement) (p : PlayerAchievement)
    (rarity : List RarityEntry) : EnrichedAchievement :=
  ⟨a.displayName, a.description, p.unlocktime, a.icon,
    (((rarity.find? (fun r => r.name == a.name)).map RarityEntry.percent).getD 0)⟩

/-- Specification-level description of the enrichment result, written
from the spec's contract (§4.3): zip the schema with the positionally
aligned player sequence, keep the achieved positions, and build one
enriched entry per kept position, in schema order. -/
def enrichSpec (schema : List SchemaAchievement) (player : List PlayerAchievement)
    (rarity : List RarityEntry) : List EnrichedAchievement :=
  ((schema.zip player).filter (fun sp => sp.2.achieved != 0)).map
    (fun sp => enrichedOf sp.1 sp.2 rarity)

/-! ## Game dispatch and owned-games mapping -/

/-- The `switch (req.params.appid)` of lines 307–319: which boss JSON
file the bosses route loads. The `default` branch loads the Dark Souls
Remastered file (the source comment reads "Replace default case with an
error response", but no error is produced). -/
def bossesFileFor (appid : String) : String :=
  if appid == "570940" then "../schemas/bosses/darksoulsremastered.json"
  else if appid == "1245620" then "../schemas/bosses/eldenring.json"
  else "../schemas/bosses/darksoulsremastered.json"

/-- The `switch (req.params.appid)` of lines 461–472: which schema JSON
module the achievements route requires. The `default` branch requires
`../schemas/darksoulsremasteredschema.json` (note: a different path from
the `570940` case, again behind a "Replace default case with an error
response" comment). -/
def schemaFileFor (appid : String) : String :=
  if appid == "570940" then "../schemas/darksoulsremastered_schema.json"
  else if appid == "1245620" then "../schemas/eldenring_schema.json"
  else "../schemas/darksoulsremasteredschema.json"

/-- An owned game as returned by Steam's `GetOwnedGames` (the fields
the route reads). -/
structure SteamGame where
  appid : Nat
  name : String
deriving Repr, DecidableEq

/-- A game object of the owned-games response
(`{ id, name, appid }`). -/
structure Game where
  id : String
  name : String
  appid : Nat
deriving Repr, DecidableEq

/-- The `switch (game.name)` of lines 146–158: map an upstream game name
to the frontend id, with `default` mapping to `"elden-ring"`. -/
def frontendId (name : String) : String :=
  if name == "DARK SOULS™: REMASTERED" then "dark-souls-remastered"
  else if name == "DARK SOULS™ II" then "dark-souls-2"
  else if name == "DARK SOULS™ III" then "dark-souls-3"
  else "elden-ring"

/-- The `data.response.games.forEach` accumulation of lines 143–169:
one `Game` per upstream game, in order. -/
def mapOwnedGames (games : List SteamGame) : List Game :=
  games.map (fun g => ⟨frontendId g.name, g.name, g.appid⟩)

/-! ## Lemmas and claim theorems -/

lemma evalLoop_pass (ach : List PlayerAchievement) (prev : Option BossMilestone)
    (b : BossMilestone) (rest : List BossMilestone) (h : passes ach b) :
    evalLoop ach prev (b :: rest) = evalLoop ach (some b) rest := by
  obtain ⟨a, hfind, hach⟩ := h
  simp [evalLoop, hfind, hach]

lemma evalLoop_fail_none (ach : List PlayerAchievement)
    (b : BossMilestone) (rest : List BossMilestone) (h : failsAt ach b) :
    evalLoop ach none (b :: rest) = .err := by
  obtain ⟨a, hfind, hach⟩ := h
  simp [evalLoop, hfind, hach]

lemma evalLoop_fail_some (ach : List PlayerAchievement) (p : BossMilestone)
    (b : BossMilestone) (rest : List BossMilestone) (h : failsAt ach b) :
    evalLoop ach (some p) (b :: rest) = .dataVerdict ⟨false, some b.name, some p.name⟩ := by
  obtain ⟨a, hfind, hach⟩ := h
  simp [evalLoop, hfind, hach]

lemma evalLoop_branch (ach : List PlayerAchievement) (prev : Option BossMilestone)
    (b : BossMilestone) (rest : List BossMilestone) (cands : List String)
    (hb : b.apiname = .multi cands)
    (h : ∃ a ∈ ach, cands.contains a.apiname = true ∧ a.achieved ≠ 0) :
    evalLoop ach prev (b :: rest) = .dataVerdict ⟨true, none, some b.name⟩ := by
  obtain ⟨a, hmem, hc, hach⟩ := h
  have hfind : findExact ach b = none := by simp [findExact, hb]
  have hany : (ach.filter (fun a => apinameIncludes b.apiname a.apiname)).any
      (fun a => a.achieved != 0) = true := by
    refine List.any_eq_true.mpr ⟨a, List.mem_filter.mpr ⟨hmem, ?_⟩, by simpa using hach⟩
    simpa [apinameIncludes, hb] using hc
  simp [evalLoop, hfind, hany]

/-- Walking the loop past a fully-achieved prefix of length `j`: the scan
reaches index `j` with `prev` holding milestone `j - 1` (or the initial
`prev` when `j = 0`). -/
lemma evalLoop_reach (ach : List PlayerAchievement) :
    ∀ (j : Nat) (l : List BossMilestone) (prev : Option BossMilestone),
    j ≤ l.length →
    (∀ i (hi : i < j) (hil : i < l.length), passes ach l[i]) →
    ∃ prev', evalLoop ach prev l = evalLoop ach prev' (l.drop j) ∧
      (∀ hj : 0 < j, ∀ hjl : j - 1 < l.length, prev' = some l[j-1]) ∧
      (j = 0 → prev' = prev)
  | 0, l, prev, _, _ => ⟨prev, by simp, by omega, fun _ => rfl⟩
  | j + 1, [], prev, hj, _ => by simp at hj
  | j + 1, b :: rest, prev, hj, hpass => by
    have hstep : evalLoop ach prev (b :: rest) = evalLoop ach (some b) rest :=
      evalLoop_pass ach prev b rest (by simpa using hpass 0 (by omega) (by simp))
    obtain ⟨prev', heq, h1, h2⟩ :=
      evalLoop_reach ach j rest (some b) (by simpa using hj)
        (fun i hi hil => by simpa using hpass (i + 1) (by omega) (by simpa using hil))
    refine ⟨prev', by rw [hstep, heq]; simp, ?_, by omega⟩
    intro hj0 hjl
    rcases Nat.eq_zero_or_pos j with rfl | hjpos
    · simpa using h2 rfl
    · obtain ⟨j0, rfl⟩ : ∃ j0, j = j0 + 1 := ⟨j - 1, by omega⟩
      have hrl : j0 < rest.length := by simp at hjl; omega
      rw [h1 hjpos (by omega)]
      simp

/-- Claim C1: for a boss sequence in which every milestone has an
exact-match player entry, with the first `K` (`0 < K < N`) achieved and
milestone `K` not achieved, `evaluate` returns
`{ data: { complete: false, next_boss: milestones[K].name,
recent_boss: milestones[K-1].name } }`. -/
theorem evaluate_next_and_recent_boss (bosses : List BossMilestone)
    (ach : List PlayerAchievement) (K : Nat) (hK0 : 0 < K) (hKN : K < bosses.length)
    (hpass : ∀ i (hi : i < K), passes ach bosses[i])
    (hfail : failsAt ach bosses[K]) :
    evaluate bosses ach =
      .dataVerdict ⟨false, some bosses[K].name, some bosses[K-1].name⟩ := by
  obtain ⟨prev', heq, h1, _⟩ :=
    evalLoop_reach ach K bosses none (by omega) (fun i hi _ => hpass i hi)
  have hdrop : bosses.drop K = bosses[K] :: bosses.drop (K + 1) :=
    List.drop_eq_getElem_cons hKN
  have hprev : prev' = some bosses[K-1] := h1 hK0 (by omega)
  rw [evaluate, heq, hdrop, hprev, evalLoop_fail_some ach _ _ _ hfail]

/-- Witness for `evaluate_next_and_recent_boss` at a concrete
three-milestone sequence with the first milestone achieved and the
second one not. -/
theorem evaluate_next_and_recent_boss_witness :
    evaluate
      [⟨.single "A0", "Taurus Demon"⟩, ⟨.single "A1", "Bell Gargoyles"⟩,
        ⟨.single "A2", "Chaos Witch Quelaag"⟩]
      [⟨"A0", 1, 10⟩, ⟨"A1", 0, 0⟩, ⟨"A2", 0, 0⟩] =
      .dataVerdict ⟨false, some "Bell Gargoyles", some "Taurus Demon"⟩ :=
  evaluate_next_and_recent_boss _ _ 1 (by decide) (by decide)
    (fun i hi => by
      obtain rfl : i = 0 := by omega
      exact ⟨⟨"A0", 1, 10⟩, rfl, by decide⟩)
    ⟨⟨"A1", 0, 0⟩, rfl, rfl⟩

/-- Claim C2: when the very first milestone has an exact-match player entry
that is not achieved, the code reads `bosses[-1].name` — `undefined` in
JavaScript, so the property access throws a `TypeError` and the request
ends in the error handler; no verdict with `recent_boss` absent is
returned. -/
theorem evaluate_index_zero_not_achieved :
    evaluate [⟨.single "A0", "Iudex Gundyr"⟩] [⟨"A0", 0, 0⟩] = .err ∧
    evaluate [⟨.single "A0", "Iudex Gundyr"⟩] [⟨"A0", 0, 0⟩] ≠
      .dataVerdict ⟨false, some "Iudex Gundyr", none⟩ := by
  decide

/-- Claim C3: when every milestone is achieved, the code returns
`{ response: { complete: true, recent_boss: bosses[bosses.length - 1] } }`:
the whole last milestone object (not its `name` string), under the
top-level key `response` (not `data`). -/
theorem evaluate_all_achieved_shape :
    evaluate [⟨.single "A0", "Gwyn Lord of Cinder"⟩] [⟨"A0", 1, 42⟩] =
      .responseComplete (some ⟨.single "A0", "Gwyn Lord of Cinder"⟩) ∧
    evaluate [⟨.single "A0", "Gwyn Lord of Cinder"⟩] [⟨"A0", 1, 42⟩] ≠
      .dataVerdict ⟨true, none, some "Gwyn Lord of Cinder"⟩ := by
  decide

/-- Claim C4: for a branching milestone (array `apiname`, so no exact
match) where no candidate achievement is achieved, the loop falls
through to `currentBoss.achieved` with `currentBoss = undefined`, a
`TypeError`: the request errors out instead of yielding a
`next_boss` verdict. -/
theorem evaluate_branching_none_achieved :
    evaluate [⟨.multi ["EA", "EB", "EC"], "Elden Beast"⟩]
      [⟨"EA", 0, 0⟩, ⟨"EB", 0, 0⟩] = .err ∧
    evaluate [⟨.multi ["EA", "EB", "EC"], "Elden Beast"⟩]
      [⟨"EA", 0, 0⟩, ⟨"EB", 0, 0⟩] ≠
      .dataVerdict ⟨false, some "Elden Beast", none⟩ := by
  decide

/-- Claim C5: when the scan reaches a branching milestone (array
`apiname`) one of whose candidate achievements is achieved, `evaluate`
terminates with `{ data: { complete: true, recent_boss: <its name> } }`
and no `next_boss`; the conclusion does not depend on which candidate
was the achieved one. -/
theorem evaluate_branching_achieved (bosses : List BossMilestone)
    (ach : List PlayerAchievement) (j : Nat) (hj : j < bosses.length)
    (cands : List String) (hb : bosses[j].apiname = .multi cands)
    (hpass : ∀ i (hi : i < j), passes ach bosses[i])
    (hach : ∃ a ∈ ach, cands.contains a.apiname = true ∧ a.achieved ≠ 0) :
    evaluate bosses ach = .dataVerdict ⟨true, none, some bosses[j].name⟩ := by
  obtain ⟨prev', heq, _, _⟩ :=
    evalLoop_reach ach j bosses none (by omega) (fun i hi _ => hpass i hi)
  have hdrop : bosses.drop j = bosses[j] :: bosses.drop (j + 1) :=
    List.drop_eq_getElem_cons hj
  rw [evaluate, heq, hdrop, evalLoop_branch ach prev' _ _ cands hb hach]

/-- Witness for `evaluate_branching_achieved`: a two-milestone sequence
whose second milestone has three candidate endings, with the second
candidate achieved. -/
theorem evaluate_branching_achieved_witness :
    evaluate
      [⟨.single "A0", "Godfrey"⟩, ⟨.multi ["EA", "EB", "EC"], "Elden Beast"⟩]
      [⟨"A0", 1, 5⟩, ⟨"EB", 1, 9⟩, ⟨"EA", 0, 0⟩] =
      .dataVerdict ⟨true, none, some "Elden Beast"⟩ :=
  evaluate_branching_achieved _ _ 1 (by decide) ["EA", "EB", "EC"] (by decide)
    (fun i hi => by
      obtain rfl : i = 0 := by omega
      exact ⟨⟨"A0", 1, 5⟩, rfl, by decide⟩)
    ⟨⟨"EB", 1, 9⟩, by decide, by decide, by decide⟩

/-- Unachieved head positions are dropped by `enrichSpec`. -/
lemma enrichSpec_cons_unachieved (a : SchemaAchievement) (s : List SchemaAchievement)
    (p : PlayerAchievement) (pl : List PlayerAchievement) (rarity : List RarityEntry)
    (h : p.achieved = 0) :
    enrichSpec (a :: s) (p :: pl) rarity = enrichSpec s pl rarity := by
  simp [enrichSpec, h]

/-- Achieved head positions become one enriched entry in `enrichSpec`. -/
lemma enrichSpec_cons_achieved (a : SchemaAchievement) (s : List SchemaAchievement)
    (p : PlayerAchievement) (pl : List PlayerAchievement) (rarity : List RarityEntry)
    (h : p.achieved ≠ 0) :
    enrichSpec (a :: s) (p :: pl) rarity =
      enrichedOf a p rarity :: enrichSpec s pl rarity := by
  simp [enrichSpec, h]

/-- With all positions in bounds and the rarity table covering the
schema, `enrichAux` from position `i` computes the spec-level map-filter
over the remaining schema zipped with the remaining player entries. -/
lemma enrichAux_eq (player : List PlayerAchievement) (rarity : List RarityEntry) :
    ∀ (schema : List SchemaAchievement) (i : Nat),
    i + schema.length ≤ player.length →
    (∀ a ∈ schema, ∃ r ∈ rarity, r.name = a.name) →
    enrichAux player rarity i schema = some (enrichSpec schema (player.drop i) rarity)
  | [], i, _, _ => by simp [enrichAux, enrichSpec]
  | a :: rest, i, hlen, hcov => by
    have hi : i < player.length := by
      simp only [List.length_cons] at hlen; omega
    have hget : player[i]? = some player[i] := List.getElem?_eq_getElem hi
    have hdrop : player.drop i = player[i] :: player.drop (i + 1) :=
      List.drop_eq_getElem_cons hi
    have ih := enrichAux_eq player rarity rest (i + 1)
      (by simp only [List.length_cons] at hlen; omega)
      (fun x hx => hcov x (List.mem_cons_of_mem a hx))
    by_cases hach : player[i].achieved = 0
    · have hachb : (player[i].achieved != 0) = false := by simp [hach]
      rw [hdrop, enrichSpec_cons_unachieved _ _ _ _ _ hach]
      simpa [enrichAux, hget, hachb] using ih
    · obtain ⟨r0, hr0, hr0name⟩ := hcov a (List.mem_cons_self a rest)
      obtain ⟨r, hfind⟩ : ∃ r, rarity.find? (fun r => r.name == a.name) = some r :=
        Option.isSome_iff_exists.mp
          (List.find?_isSome.mpr ⟨r0, hr0, by simp [hr0name]⟩)
      have hachb : (player[i].achieved != 0) = true := by simp [hach]
      rw [hdrop, enrichSpec_cons_achieved _ _ _ _ _ hach]
      simp only [enrichAux, hget, hachb, hfind, ih]
      simp [enrichedOf, hfind]

/-- Claim C7: with the player sequence positionally aligned with the
schema (equal lengths) and the rarity table covering every schema entry,
`enrich` succeeds and returns exactly one enriched entry per achieved
position, in schema order, and nothing for unachieved positions; in
particular it returns `some []` (an empty array, never a missing value)
when no position is achieved. -/
theorem enrich_achieved_only_in_order (schema : List SchemaAchievement)
    (player : List PlayerAchievement) (rarity : List RarityEntry)
    (hlen : player.length = schema.length)
    (hcov : ∀ a ∈ schema, ∃ r ∈ rarity, r.name = a.name) :
    enrich schema player rarity = some (enrichSpec schema player rarity) ∧
    ((∀ p ∈ player, p.achieved = 0) → enrich schema player rarity = some []) := by
  have h := enrichAux_eq player rarity schema 0 (by omega) hcov
  rw [List.drop_zero] at h
  have h2 : enrich schema player rarity = some (enrichSpec schema player rarity) := h
  refine ⟨h2, fun hall => ?_⟩
  rw [h2]
  have hnil : (schema.zip player).filter (fun sp => sp.2.achieved != 0) = [] := by
    refine List.filter_eq_nil_iff.mpr (fun sp hsp => ?_)
    have := (List.of_mem_zip hsp).2
    simp [hall sp.2 this]
  simp [enrichSpec, hnil]

/-- Witness for `enrich_achieved_only_in_order`: the spec's own §8
example — two schema entries, only the second achieved, rarity 42. -/
theorem enrich_achieved_only_in_order_witness :
    enrich [⟨"A0", "Zero", "d0", "i0"⟩, ⟨"A1", "One", "d1", "i1"⟩]
      [⟨"A0", 0, 0⟩, ⟨"A1", 1, 1700000000⟩]
      [⟨"A0", 10⟩, ⟨"A1", 42⟩] =
      some [⟨"One", "d1", 1700000000, "i1", 42⟩] :=
  ((enrich_achieved_only_in_order _ _ _ (by decide) (by decide)).1).trans (by decide)

/-- If some position `i + j` is achieved but no rarity entry matches
schema entry `j`, the whole computation from position `i` fails
(`undefined.percent` throws once the loop reaches that position, unless
an earlier position already threw). -/
lemma enrichAux_missing (player : List PlayerAchievement) (rarity : List RarityEntry) :
    ∀ (schema : List SchemaAchievement) (i : Nat),
    (∃ j, ∃ hj : j < schema.length, ∃ p,
      player[i + j]? = some p ∧ p.achieved ≠ 0 ∧
      ∀ r ∈ rarity, r.name ≠ schema[j].name) →
    enrichAux player rarity i schema = none
  | [], _, h => by
    obtain ⟨j, hj, _⟩ := h
    simp at hj
  | a :: rest, i, h => by
    obtain ⟨j, hj, pj, hpj, hach, hmiss⟩ := h
    match hpi : player[i]? with
    | none => simp [enrichAux, hpi]
    | some p =>
      by_cases hach0 : p.achieved = 0
      · obtain ⟨j0, rfl⟩ : ∃ j0, j = j0 + 1 := by
          rcases Nat.eq_zero_or_pos j with rfl | hjpos
          · exfalso
            have hpj0 : player[i]? = some pj := hpj
            rw [hpi] at hpj0
            cases hpj0
            exact hach hach0
          · exact ⟨j - 1, by omega⟩
        have ih := enrichAux_missing player rarity rest (i + 1)
          ⟨j0, by simpa using hj, pj,
            by rw [show i + 1 + j0 = i + (j0 + 1) from by omega]; exact hpj,
            hach, by simpa using hmiss⟩
        simp [enrichAux, hpi, hach0, ih]
      · match hfind : rarity.find? (fun r => r.name == a.name) with
        | none => simp [enrichAux, hpi, hach0, hfind]
        | some r =>
          obtain ⟨j0, rfl⟩ : ∃ j0, j = j0 + 1 := by
            rcases Nat.eq_zero_or_pos j with rfl | hjpos
            · exfalso
              have hrmem := List.mem_of_find?_eq_some hfind
              have hrp := List.find?_some hfind
              exact hmiss r hrmem (by simpa using hrp)
            · exact ⟨j - 1, by omega⟩
          have ih := enrichAux_missing player rarity rest (i + 1)
            ⟨j0, by simpa using hj, pj,
              by rw [show i + 1 + j0 = i + (j0 + 1) from by omega]; exact hpj,
              hach, by simpa using hmiss⟩
          simp [enrichAux, hpi, hach0, hfind, ih]

/-- Claim C8: if some achieved position has no rarity entry whose `name`
equals its schema identifier, the entire enrichment call fails — the
result is `none` (the thrown `TypeError` discards everything), not a
partial list, not an entry with the rarity omitted or zero-filled. -/
theorem enrich_missing_rarity_fails (schema : List SchemaAchievement)
    (player : List PlayerAchievement) (rarity : List RarityEntry)
    (h : ∃ j, ∃ hj : j < schema.length, ∃ hp : j < player.length,
      player[j].achieved ≠ 0 ∧ ∀ r ∈ rarity, r.name ≠ schema[j].name) :
    enrich schema player rarity = none := by
  obtain ⟨j, hj, hp, hach, hmiss⟩ := h
  exact enrichAux_missing player rarity schema 0
    ⟨j, hj, player[j],
      by simp, hach, hmiss⟩

/-- Witness for `enrich_missing_rarity_fails`: one achieved achievement
whose identifier appears nowhere in the rarity table. -/
theorem enrich_missing_rarity_fails_witness :
    enrich [⟨"A0", "Zero", "d0", "i0"⟩] [⟨"A0", 1, 5⟩] [⟨"B9", 10⟩] = none :=
  enrich_missing_rarity_fails _ _ _ ⟨0, by decide, by decide, by decide, by decide⟩

/-- Claim C9: on a length mismatch the code does not report a distinct
`MalformedInput` error: with the player sequence shorter than the schema
it indexes past the end (`playerAchievements[index]` is `undefined`, so
`.achieved` throws a generic `TypeError`, indistinguishable from any
other thrown error — modelled as the same `none` as a missing rarity
entry), and with the player sequence longer it silently ignores the
extra entries and returns a normal result. -/
theorem enrich_length_mismatch_behaviour :
    enrich [⟨"A0", "Zero", "d0", "i0"⟩, ⟨"A1", "One", "d1", "i1"⟩]
      [⟨"A0", 1, 5⟩] [⟨"A0", 10⟩, ⟨"A1", 42⟩] = none ∧
    enrich [⟨"A0", "Zero", "d0", "i0"⟩]
      [⟨"A0", 1, 5⟩, ⟨"EXTRA", 1, 6⟩] [⟨"A0", 10⟩] =
      some [⟨"Zero", "d0", 5, "i0", 10⟩] := by
  decide

/-- Claim C6: the `switch` dispatch on `appid` never produces a not-found
outcome: an unknown appid is silently given Dark Souls Remastered's boss
file on the bosses route (identical to the `"570940"` case), and on the
achievements route the `default` branch requires a module path that is
not the one any known game uses. -/
theorem dispatch_unknown_appid_defaults :
    bossesFileFor "999999" = bossesFileFor "570940" ∧
    bossesFileFor "999999" = "../schemas/bosses/darksoulsremastered.json" ∧
    schemaFileFor "999999" = "../schemas/darksoulsremasteredschema.json" := by
  decide

/-- Claim C10: in the owned-games mapping, any game whose upstream name is
not exactly one of the three Dark Souls names is assigned the frontend
id `"elden-ring"`, whatever its appid or name. -/
theorem ownedGames_default_elden_ring (games : List SteamGame) (g : Game)
    (hg : g ∈ mapOwnedGames games)
    (h1 : g.name ≠ "DARK SOULS™: REMASTERED")
    (h2 : g.name ≠ "DARK SOULS™ II")
    (h3 : g.name ≠ "DARK SOULS™ III") :
    g.id = "elden-ring" := by
  obtain ⟨sg, hsg, rfl⟩ := List.mem_map.mp hg
  simp only [frontendId] at h1 h2 h3 ⊢
  simp [h1, h2, h3]

/-- Witness for `ownedGames_default_elden_ring`: a game named
`"SEKIRO"` is mapped to the id `"elden-ring"`. -/
theorem ownedGames_default_elden_ring_witness :
    Game.mk "elden-ring" "SEKIRO" 123 ∈ mapOwnedGames [⟨123, "SEKIRO"⟩] ∧
    (Game.mk "elden-ring" "SEKIRO" 123).id = "elden-ring" :=
  ⟨by decide,
    ownedGames_default_elden_ring [⟨123, "SEKIRO"⟩] _
      (by decide) (by decide) (by decide) (by decide)⟩

end SoulsTracker
